import Mathlib

/-!
Verification of the hook utilities repository (decorator hooks, async hooks,
pipeline, agent orchestration) against its natural-language specification.

Each Python class and method used by the claims is shallowly embedded as a
Lean definition translated from the source:

- hooks/python-hooks/decorator_hooks.py : HookPriority, HookMetadata,
  HookRegistry.register / trigger.
- hooks/python-hooks/async_hooks.py : AsyncHookRegistry.trigger,
  AsyncHookContext (teardown sweep), AsyncPipeline.process.
- hooks/ai-llm-hooks/agent_orchestration.py : AgentOrchestrator.execute_workflow.

Hook callables are abstracted as identifiers (Nat) evaluated through an
oracle; a hook that raises is modelled by the oracle returning none
(for the synchronous registry, whose trigger drops failures) or an
Except error value (for the async registry and the orchestrator, where
the failure object itself is observable).
-/

namespace HookVerif

/-- Metadata of one registered hook, mirroring the HookMetadata dataclass of
decorator_hooks.py.  The callable is abstracted by funcId; priority is the
HookPriority value (LOWEST = 0 .. HIGHEST = 4); regIndex is the (ghost)
global registration sequence number used to state stability. -/
structure HookMetadata where
  funcId : Nat
  priority : Nat
  name : String
  enabled : Bool
  regIndex : Nat
deriving DecidableEq, Repr

/-- Insert a hook into a priority-descending list, after all entries of
greater-or-equal priority that precede its insertion point; part of the
stable descending sort performed by list.sort(key=priority, reverse=True). -/
def insertHook (x : HookMetadata) : List HookMetadata → List HookMetadata
  | [] => [x]
  | y :: ys => if y.priority ≤ x.priority then x :: y :: ys else y :: insertHook x ys

/-- Stable sort by descending priority, modelling
list.sort(key=lambda h: h.priority.value, reverse=True) of
HookRegistry.register (Python sorts are stable). -/
def sortHooks : List HookMetadata → List HookMetadata
  | [] => []
  | x :: xs => insertHook x (sortHooks xs)

/-- Association-list lookup, modelling Python dict read access d[k] / k in d. -/
def assocGet {κ α : Type} [DecidableEq κ] : List (κ × α) → κ → Option α
  | [], _ => none
  | (k, v) :: rest, e => if k = e then some v else assocGet rest e

/-- Association-list update, modelling Python dict assignment d[k] = v
(replace the existing binding, else append a new one). -/
def assocSet {κ α : Type} [DecidableEq κ] : List (κ × α) → κ → α → List (κ × α)
  | [], e, v => [(e, v)]
  | (k, w) :: rest, e, v => if k = e then (k, v) :: rest else (k, w) :: assocSet rest e v

/-- State of HookRegistry (decorator_hooks.py): the per-event hook dict
and the global hook list. -/
structure HookRegistry where
  hooks : List (String × List HookMetadata)
  globalHooks : List HookMetadata

/-- The empty registry produced by HookRegistry.__init__. -/
def HookRegistry.empty : HookRegistry := ⟨[], []⟩

/-- HookRegistry.register: build the metadata record, append it to the global
list (event = none) or to the event's list, then re-sort that list by
descending priority with a stable sort. -/
def HookRegistry.register (st : HookRegistry) (event : Option String) (priority : Nat)
    (nm : String) (enabled : Bool) (funcId : Nat) (regIndex : Nat) : HookRegistry :=
  let md : HookMetadata := ⟨funcId, priority, nm, enabled, regIndex⟩
  match event with
  | none => { st with globalHooks := sortHooks (st.globalHooks ++ [md]) }
  | some e =>
      let old := (assocGet st.hooks e).getD []
      { st with hooks := assocSet st.hooks e (sortHooks (old ++ [md])) }

/-- One registration call: the arguments passed to HookRegistry.register. -/
structure RegCmd where
  event : Option String
  priority : Nat
  name : String
  enabled : Bool
  funcId : Nat

/-- The metadata record that the i-th registration call creates. -/
def RegCmd.meta (c : RegCmd) (i : Nat) : HookMetadata :=
  ⟨c.funcId, c.priority, c.name, c.enabled, i⟩

/-- Replay a list of registration calls, numbering them from i. -/
def buildAux : Nat → List RegCmd → HookRegistry → HookRegistry
  | _, [], st => st
  | i, c :: rest, st =>
      buildAux (i + 1) rest (st.register c.event c.priority c.name c.enabled c.funcId i)

/-- The registry obtained from a sequence of register calls on a fresh
HookRegistry. -/
def buildRegistry (cmds : List RegCmd) : HookRegistry :=
  buildAux 0 cmds HookRegistry.empty

/-- The metadata records of the global registrations among cmds, in
registration order, numbered from i. -/
def globalMetaAux : Nat → List RegCmd → List HookMetadata
  | _, [] => []
  | i, c :: rest =>
      match c.event with
      | none => c.meta i :: globalMetaAux (i + 1) rest
      | some _ => globalMetaAux (i + 1) rest

/-- The metadata records of the registrations for event e among cmds, in
registration order, numbered from i. -/
def eventMetaAux (e : String) : Nat → List RegCmd → List HookMetadata
  | _, [] => []
  | i, c :: rest =>
      if c.event = some e then c.meta i :: eventMetaAux e (i + 1) rest
      else eventMetaAux e (i + 1) rest

/-- One loop of HookRegistry.trigger over a hook list: skip disabled hooks,
call each enabled hook (exec gives its return value, none meaning it raised),
append successful results, log-and-drop failures. -/
def runGroup (exec : Nat → Option Int) (hooks : List HookMetadata) : List Int :=
  hooks.filterMap (fun h => if h.enabled then exec h.funcId else none)

/-- HookRegistry.trigger as a state transformer: runs the global group then
the event group and returns the (unchanged) registry together with the
collected results. -/
def HookRegistry.triggerM (st : HookRegistry) (event : String) (exec : Nat → Option Int) :
    HookRegistry × List Int :=
  let globalResults := runGroup exec st.globalHooks
  let eventResults := runGroup exec ((assocGet st.hooks event).getD [])
  (st, globalResults ++ eventResults)

/-- The result list returned by HookRegistry.trigger. -/
def HookRegistry.trigger (st : HookRegistry) (event : String) (exec : Nat → Option Int) :
    List Int :=
  (st.triggerM event exec).2

/-- Specification order on hook records: a may precede b when a has strictly
greater priority, or equal priority and an earlier registration. -/
def lexKey (a b : HookMetadata) : Prop :=
  b.priority < a.priority ∨ (a.priority = b.priority ∧ a.regIndex < b.regIndex)

/-- Stability hypothesis: among equal priorities, earlier elements have
smaller registration indices. -/
def stableOrd (a b : HookMetadata) : Prop :=
  a.priority = b.priority → a.regIndex < b.regIndex

/-- A hook list is well formed at bound n when it is in specification order
and all registration indices are below n. -/
def WF (bound : Nat) (l : List HookMetadata) : Prop :=
  l.Pairwise lexKey ∧ ∀ y ∈ l, y.regIndex < bound

/-- Registry invariant after the first i registrations. -/
def StInv (i : Nat) (st : HookRegistry) : Prop :=
  WF i st.globalHooks ∧ ∀ e : String, WF i ((assocGet st.hooks e).getD [])

/-- State of AsyncHookRegistry (async_hooks.py): per-event main, pre and post
hook lists; hooks are abstracted by identifier. -/
structure AsyncHookRegistry where
  hooks : List (String × List Nat)
  preHooks : List (String × List Nat)
  postHooks : List (String × List Nat)

/-- AsyncHookRegistry.register: append the hook to the event's main list. -/
def AsyncHookRegistry.register (st : AsyncHookRegistry) (event : String) (funcId : Nat) :
    AsyncHookRegistry :=
  { st with hooks := assocSet st.hooks event (((assocGet st.hooks event).getD []) ++ [funcId]) }

/-- AsyncHookRegistry.register_pre. -/
def AsyncHookRegistry.registerPre (st : AsyncHookRegistry) (event : String) (funcId : Nat) :
    AsyncHookRegistry :=
  { st with preHooks := assocSet st.preHooks event (((assocGet st.preHooks event).getD []) ++ [funcId]) }

/-- AsyncHookRegistry.register_post. -/
def AsyncHookRegistry.registerPost (st : AsyncHookRegistry) (event : String) (funcId : Nat) :
    AsyncHookRegistry :=
  { st with postHooks := assocSet st.postHooks event (((assocGet st.postHooks event).getD []) ++ [funcId]) }

/-- The sequential branch of run_hooks in AsyncHookRegistry.trigger: await the
hooks one by one; the first raised error propagates and the remaining hooks of
the group do not run.  Successful values are wrapped in Except.ok so that the
result type matches the concurrent branch. -/
def seqHooks (exec : Nat → Except String Int) : List Nat → Except String (List (Except String Int))
  | [] => Except.ok []
  | h :: rest =>
      match exec h with
      | Except.ok v =>
          match seqHooks exec rest with
          | Except.ok rs => Except.ok (Except.ok v :: rs)
          | Except.error e => Except.error e
      | Except.error e => Except.error e

/-- run_hooks of AsyncHookRegistry.trigger: concurrent mode is
asyncio.gather(*tasks, return_exceptions=True), which fills every positional
slot with the hook's value or its exception and never itself fails;
sequential mode is seqHooks. -/
def runHooks (concurrent : Bool) (exec : Nat → Except String Int) (hookList : List Nat) :
    Except String (List (Except String Int)) :=
  if concurrent then Except.ok (hookList.map exec) else seqHooks exec hookList

/-- The truthiness test of the Python line 'if timeout:' guarding
asyncio.wait_for around the main hook group: None and 0 are falsy, every
other number (including negative ones) is truthy. -/
def timeoutGuard (timeout : Option ℚ) : Bool :=
  match timeout with
  | none => false
  | some t => if t = 0 then false else true

/-- One optional hook group of AsyncHookRegistry.trigger: absent event means
the group is skipped (empty results). -/
def runGroupOpt (concurrent : Bool) (exec : Nat → Except String Int)
    (l : Option (List Nat)) : Except String (List (Except String Int)) :=
  match l with
  | none => Except.ok []
  | some hookList => runHooks concurrent exec hookList

/-- The main hook group of AsyncHookRegistry.trigger with its optional
asyncio.wait_for deadline.  mainDuration abstracts the wall-clock time the
group needs; when a deadline is applied and the group does not finish within
it, the call fails with the Timeout condition. -/
def runMainGroup (concurrent : Bool) (timeout : Option ℚ) (mainDuration : ℚ)
    (exec : Nat → Except String Int) (l : Option (List Nat)) :
    Except String (List (Except String Int)) :=
  match l with
  | none => Except.ok []
  | some hookList =>
      if timeoutGuard timeout then
        if mainDuration ≤ timeout.getD 0 then runHooks concurrent exec hookList
        else Except.error "TimeoutError"
      else runHooks concurrent exec hookList

/-- AsyncHookRegistry.trigger: run the pre group, the main group (with the
optional deadline) and the post group, returning the three result lists; a
failure escaping any group aborts the call. -/
def AsyncHookRegistry.trigger (st : AsyncHookRegistry) (event : String) (concurrent : Bool)
    (timeout : Option ℚ) (mainDuration : ℚ) (exec : Nat → Except String Int) :
    Except String (List (Except String Int) × List (Except String Int) × List (Except String Int)) :=
  match runGroupOpt concurrent exec (assocGet st.preHooks event) with
  | Except.error e => Except.error e
  | Except.ok preResults =>
      match runMainGroup concurrent timeout mainDuration exec (assocGet st.hooks event) with
      | Except.error e => Except.error e
      | Except.ok mainResults =>
          match runGroupOpt concurrent exec (assocGet st.postHooks event) with
          | Except.error e => Except.error e
          | Except.ok postResults => Except.ok (preResults, mainResults, postResults)

/-- Decidable success test on Except values, used to state hypotheses. -/
def isOkE {ε α : Type} : Except ε α → Bool
  | Except.ok _ => true
  | Except.error _ => false

/-- The resource map accumulated by AsyncHookContext setup hooks. -/
abbrev ResMap := List (String × Int)

/-- State of AsyncHookContext at scope exit: its name, the registered
teardown hooks (in registration order) and the current resource map. -/
structure AsyncHookContext where
  name : String
  teardownHooks : List (ResMap → Except String Unit)
  resources : ResMap

/-- The loop body of AsyncHookContext.__aexit__ over an already-reversed hook
list: await each teardown hook on the resource map; a raised error propagates
at once (nothing catches it) and the remaining hooks do not run; after a full
pass the method returns False. -/
def runTeardown (res : ResMap) : List (ResMap → Except String Unit) → Except String Bool
  | [] => Except.ok false
  | h :: rest =>
      match h res with
      | Except.ok _ => runTeardown res rest
      | Except.error e => Except.error e

/-- AsyncHookContext.__aexit__: iterate the teardown hooks in reverse
registration order. -/
def AsyncHookContext.aexit (ctx : AsyncHookContext) : Except String Bool :=
  runTeardown ctx.resources ctx.teardownHooks.reverse

/-- Observation of which teardown hooks actually ran during __aexit__ and
with which outcome: one entry per executed hook, in execution order; the
trace stops at the first failing hook because nothing after it runs. -/
def teardownOutcomes (res : ResMap) :
    List (ResMap → Except String Unit) → List (Except String Unit)
  | [] => []
  | h :: rest =>
      match h res with
      | Except.ok _ => Except.ok () :: teardownOutcomes res rest
      | Except.error e => [Except.error e]

/-- The execution trace of AsyncHookContext.__aexit__. -/
def AsyncHookContext.aexitOutcomes (ctx : AsyncHookContext) : List (Except String Unit) :=
  teardownOutcomes ctx.resources ctx.teardownHooks.reverse

/-- State of AsyncPipeline (async_hooks.py): the stage list and the
stage-index-keyed error handler dict. -/
structure AsyncPipeline where
  stages : List (Int → Except String Int)
  errorHandlers : List (Nat × (Int → String → Except String Int))

/-- AsyncPipeline.add_stage: append the stage; when an error handler is
given, store it under the stage's index. -/
def AsyncPipeline.add_stage (p : AsyncPipeline) (stage : Int → Except String Int)
    (errorHandler : Option (Int → String → Except String Int)) : AsyncPipeline :=
  let index := p.stages.length
  match errorHandler with
  | some h => ⟨p.stages ++ [stage], assocSet p.errorHandlers index h⟩
  | none => ⟨p.stages ++ [stage], p.errorHandlers⟩

/-- The loop of AsyncPipeline.process, starting at stage index i over the
remaining stages: run the stage on the current value; on success continue
with its result; on failure consult the handler dict for index i — a handler
result becomes the new current value and processing continues, a missing
handler re-raises, and a handler failure propagates. -/
def runStages (handlers : List (Nat × (Int → String → Except String Int))) :
    Nat → List (Int → Except String Int) → Int → Except String Int
  | _, [], v => Except.ok v
  | i, s :: rest, v =>
      match s v with
      | Except.ok w => runStages handlers (i + 1) rest w
      | Except.error e =>
          match assocGet handlers i with
          | some h =>
              match h v e with
              | Except.ok w => runStages handlers (i + 1) rest w
              | Except.error e2 => Except.error e2
          | none => Except.error e

/-- AsyncPipeline.process: run the value through all stages from index 0. -/
def AsyncPipeline.process (p : AsyncPipeline) (v : Int) : Except String Int :=
  runStages p.errorHandlers 0 p.stages v

/-- The tail of process that remains when stage index i has been reached with
current value v. -/
def AsyncPipeline.processFrom (p : AsyncPipeline) (i : Nat) (v : Int) : Except String Int :=
  runStages p.errorHandlers i (p.stages.drop i) v

/-- State of AgentOrchestrator (agent_orchestration.py): the agent registry
(id to execute function, abstracting AgentHook.execute), the workflow table
and the global hooks. -/
structure AgentOrchestrator where
  agents : List (String × (Int → Except String Int))
  workflows : List (String × List String)
  globalHooks : List (String → Int → Except String Unit)

/-- The global-hook loop at the start of execute_workflow: each hook is
called with the workflow name and the current (initial) message; a raised
error propagates. -/
def runGlobalHooks : List (String → Int → Except String Unit) → String → Int →
    Except String Unit
  | [], _, _ => Except.ok ()
  | h :: rest, n, m =>
      match h n m with
      | Except.ok _ => runGlobalHooks rest n m
      | Except.error e => Except.error e

/-- The agents of the sequence that are actually registered, in sequence
order: ids without a registered agent are dropped, as in both branches of
execute_workflow. -/
def resolveAgents (agents : List (String × (Int → Except String Int)))
    (agentSequence : List String) : List (Int → Except String Int) :=
  agentSequence.filterMap (fun aid => assocGet agents aid)

/-- The sequential branch of execute_workflow: walk the agent ids in order,
silently skipping unregistered ids; each executed agent receives the current
message, its result is collected and becomes the new current message; an
agent failure propagates at once. -/
def chainAgents (agents : List (String × (Int → Except String Int))) :
    List String → Int → Except String (List Int)
  | [], _ => Except.ok []
  | aid :: rest, current =>
      match assocGet agents aid with
      | none => chainAgents agents rest current
      | some a =>
          match a current with
          | Except.ok m =>
              match chainAgents agents rest m with
              | Except.ok ms => Except.ok (m :: ms)
              | Except.error e => Except.error e
          | Except.error e => Except.error e

/-- The same sequential chaining over an already-resolved agent list, used to
state the claims about skipping and threading. -/
def chainRun : List (Int → Except String Int) → Int → Except String (List Int)
  | [], _ => Except.ok []
  | f :: fs, v =>
      match f v with
      | Except.ok m =>
          match chainRun fs m with
          | Except.ok ms => Except.ok (m :: ms)
          | Except.error e => Except.error e
      | Except.error e => Except.error e

/-- The parallel branch's result filter (isinstance(r, AgentMessage)): keep
normal results, drop exception outcomes. -/
def exceptToOption : Except String Int → Option Int
  | Except.ok v => some v
  | Except.error _ => none

/-- AgentOrchestrator.execute_workflow: resolve the workflow (unknown names
raise), run the global hooks, then either fan out every resolved agent on the
initial message and collect the successful results after the initial message
(parallel), or chain the agents sequentially after the initial message. -/
def AgentOrchestrator.execute_workflow (o : AgentOrchestrator) (workflowName : String)
    (initial : Int) (parallel : Bool) : Except String (List Int) :=
  match assocGet o.workflows workflowName with
  | none => Except.error "workflow not found"
  | some agentSequence =>
      match runGlobalHooks o.globalHooks workflowName initial with
      | Except.error e => Except.error e
      | Except.ok _ =>
          if parallel then
            Except.ok (initial ::
              ((resolveAgents o.agents agentSequence).map (fun a => a initial)).filterMap
                exceptToOption)
          else
            match chainAgents o.agents agentSequence initial with
            | Except.ok ms => Except.ok (initial :: ms)
            | Except.error e => Except.error e

/-- Teardown hook that succeeds. -/
def tdOk : ResMap → Except String Unit := fun _ => Except.ok ()

/-- Teardown hook that raises. -/
def tdBoom : ResMap → Except String Unit := fun _ => Except.error "boom"

/-- Context with three teardown hooks whose second-registered hook raises. -/
def ctx3 : AsyncHookContext := ⟨"c", [tdOk, tdBoom, tdOk], []⟩

/-- Pipeline stage adding one. -/
def stInc : Int → Except String Int := fun v => Except.ok (v + 1)

/-- Pipeline stage that always raises. -/
def stBoom : Int → Except String Int := fun _ => Except.error "boom"

/-- Pipeline stage multiplying by ten. -/
def stTimes10 : Int → Except String Int := fun v => Except.ok (v * 10)

/-- Error handler returning the fixed fallback value 7. -/
def hFallback : Int → String → Except String Int := fun _ _ => Except.ok 7

/-- Three-stage pipeline whose middle stage raises but has a recovering
handler. -/
def p3 : AsyncPipeline := ⟨[stInc, stBoom, stTimes10], [(1, hFallback)]⟩

/-- Agent that succeeds, adding one. -/
def agA : Int → Except String Int := fun v => Except.ok (v + 1)

/-- Agent that always raises. -/
def agB : Int → Except String Int := fun _ => Except.error "bfail"

/-- Agent that succeeds, adding three. -/
def agC : Int → Except String Int := fun v => Except.ok (v + 3)

/-- Orchestrator with agents A, B, C and the workflow [A, B, C], where B
always raises. -/
def orch3 : AgentOrchestrator := ⟨[("A", agA), ("B", agB), ("C", agC)], [("wf", ["A", "B", "C"])], []⟩

/-- Async hook evaluation where hook 2 raises and every other hook returns
its identifier. -/
def exec7 : Nat → Except String Int := fun n => if n = 2 then Except.error "boom" else Except.ok (Int.ofNat n)

/-- Async registry for event e with pre hook 0, main hooks 1, 2, 3, post hook 4. -/
def areg7 : AsyncHookRegistry := ⟨[("e", [1, 2, 3])], [("e", [0])], [("e", [4])]⟩

/-- Async registry for event e with failing pre hook 0 and main hook 1. -/
def areg8 : AsyncHookRegistry := ⟨[("e", [1])], [("e", [0])], []⟩

/-- Async hook evaluation where pre hook 0 raises. -/
def exec8 : Nat → Except String Int := fun n => if n = 0 then Except.error "preboom" else Except.ok 1

/-- Async registry for event e with a single main hook. -/
def areg10 : AsyncHookRegistry := ⟨[("e", [0])], [], []⟩

/-- Async hook evaluation where every hook succeeds. -/
def exec10 : Nat → Except String Int := fun _ => Except.ok 1

theorem insertHook_perm (x : HookMetadata) (l : List HookMetadata) :
    (insertHook x l).Perm (x :: l) := by
  induction l with
  | nil => simp [insertHook]
  | cons y ys ih =>
      by_cases h : y.priority ≤ x.priority
      · simp [insertHook, h]
      · simp only [insertHook, if_neg h]
        exact ((ih.cons y).trans (List.Perm.swap x y ys))

theorem sortHooks_perm (l : List HookMetadata) : (sortHooks l).Perm l := by
  induction l with
  | nil => simp [sortHooks]
  | cons x xs ih =>
      exact (insertHook_perm x (sortHooks xs)).trans (ih.cons x)

theorem mem_sortHooks {y : HookMetadata} {l : List HookMetadata} :
    y ∈ sortHooks l ↔ y ∈ l :=
  (sortHooks_perm l).mem_iff

theorem mem_insertHook {y x : HookMetadata} {l : List HookMetadata} :
    y ∈ insertHook x l ↔ y = x ∨ y ∈ l := by
  rw [(insertHook_perm x l).mem_iff, List.mem_cons]

theorem insertHook_pairwise {x : HookMetadata} {l : List HookMetadata}
    (hl : l.Pairwise lexKey)
    (hx : ∀ y ∈ l, y.priority = x.priority → x.regIndex < y.regIndex) :
    (insertHook x l).Pairwise lexKey := by
  induction l with
  | nil => simp [insertHook, List.pairwise_singleton]
  | cons y ys ih =>
      rcases List.pairwise_cons.mp hl with ⟨hy, hys⟩
      by_cases h : y.priority ≤ x.priority
      · simp only [insertHook, if_pos h]
        refine List.pairwise_cons.mpr ⟨?_, List.pairwise_cons.mpr ⟨hy, hys⟩⟩
        intro z hz
        rcases List.mem_cons.mp hz with rfl | hz
        · rcases lt_or_eq_of_le h with hlt | heq
          · exact Or.inl hlt
          · exact Or.inr ⟨heq.symm, hx z (List.mem_cons_self z ys) heq⟩
        · rcases hy z hz with hlt | ⟨heq, hreg⟩
          · exact Or.inl (lt_of_lt_of_le hlt h)
          · rcases lt_or_eq_of_le h with hlt | hpe
            · exact Or.inl (heq ▸ hlt)
            · have hzx : z.priority = x.priority := by omega
              exact Or.inr ⟨hzx.symm, hx z (List.mem_cons_of_mem y hz) hzx⟩
      · simp only [insertHook, if_neg h]
        refine List.pairwise_cons.mpr ⟨?_, ih hys (fun z hz hp => hx z (List.mem_cons_of_mem y hz) hp)⟩
        intro z hz
        rcases mem_insertHook.mp hz with rfl | hz
        · exact Or.inl (Nat.lt_of_not_le h)
        · exact hy z hz

theorem sortHooks_pairwise {l : List HookMetadata} (hl : l.Pairwise stableOrd) :
    (sortHooks l).Pairwise lexKey := by
  induction l with
  | nil => simp [sortHooks]
  | cons x xs ih =>
      rcases List.pairwise_cons.mp hl with ⟨hx, hxs⟩
      refine insertHook_pairwise (ih hxs) ?_
      intro y hy hp
      exact hx y (mem_sortHooks.mp hy) hp.symm

theorem lexKey_stableOrd {a b : HookMetadata} (h : lexKey a b) : stableOrd a b := by
  intro hp
  rcases h with hlt | ⟨_, hr⟩
  · omega
  · exact hr

/-- Appending a fresh record (registration index = current bound) to a
well-formed list and re-sorting yields a well-formed list at the next bound;
the result is a permutation of the appended list.  This is the effect of one
HookRegistry.register call on the touched hook list. -/
theorem register_list_wf {l : List HookMetadata} {b : Nat} {x : HookMetadata}
    (h : WF b l) (hx : x.regIndex = b) :
    WF (b + 1) (sortHooks (l ++ [x])) ∧ (sortHooks (l ++ [x])).Perm (l ++ [x]) := by
  obtain ⟨hpw, hbd⟩ := h
  have hstable : (l ++ [x]).Pairwise stableOrd := by
    rw [List.pairwise_append]
    refine ⟨hpw.imp lexKey_stableOrd, List.pairwise_singleton _ _, ?_⟩
    intro a ha y hy _
    have : a.regIndex < b := hbd a ha
    rcases List.mem_singleton.mp hy with rfl
    omega
  refine ⟨⟨sortHooks_pairwise hstable, ?_⟩, sortHooks_perm _⟩
  intro y hy
  rcases List.mem_append.mp (mem_sortHooks.mp hy) with hyl | hyx
  · exact Nat.lt_succ_of_lt (hbd y hyl)
  · rcases List.mem_singleton.mp hyx with rfl
    omega

theorem WF_mono {b c : Nat} {l : List HookMetadata} (h : WF b l) (hbc : b ≤ c) : WF c l :=
  ⟨h.1, fun y hy => lt_of_lt_of_le (h.2 y hy) hbc⟩

theorem assocGet_assocSet {κ α : Type} [DecidableEq κ] (l : List (κ × α)) (k : κ) (v : α)
    (k' : κ) :
    assocGet (assocSet l k v) k' = if k = k' then some v else assocGet l k' := by
  induction l with
  | nil => by_cases h : k = k' <;> simp [assocSet, assocGet, h]
  | cons p rest ih =>
      obtain ⟨pk, pv⟩ := p
      by_cases h1 : pk = k
      · subst h1
        by_cases h2 : pk = k' <;> simp [assocSet, assocGet, h2]
      · by_cases h2 : pk = k'
        · subst h2
          have : ¬ k = pk := fun h => h1 h.symm
          simp [assocSet, h1, assocGet, this]
        · simp [assocSet, h1, assocGet, h2, ih]

theorem StInv_empty : StInv 0 HookRegistry.empty := by
  have hnil : ∀ y : HookMetadata, y ∈ ([] : List HookMetadata) → y.regIndex < 0 := by
    intro y hy
    exact absurd hy (List.not_mem_nil y)
  exact ⟨⟨List.Pairwise.nil, hnil⟩, fun e => ⟨List.Pairwise.nil, hnil⟩⟩

/-- Replaying registrations preserves the registry invariant and adds, to the
global list and to each event list, exactly the matching registrations (as a
permutation: the order inside the lists is settled separately by WF). -/
theorem buildAux_spec (cmds : List RegCmd) (i : Nat) (st : HookRegistry) (h : StInv i st) :
    StInv (i + cmds.length) (buildAux i cmds st) ∧
    (buildAux i cmds st).globalHooks.Perm (st.globalHooks ++ globalMetaAux i cmds) ∧
    ∀ e : String, ((assocGet (buildAux i cmds st).hooks e).getD []).Perm
      ((assocGet st.hooks e).getD [] ++ eventMetaAux e i cmds) := by
  induction cmds generalizing i st with
  | nil =>
      refine ⟨by simpa [buildAux] using h, by simp [buildAux, globalMetaAux], ?_⟩
      intro e
      simp [buildAux, eventMetaAux]
  | cons c rest ih =>
      rcases hc : c.event with _ | ev
      · -- global registration
        have hreg : st.register c.event c.priority c.name c.enabled c.funcId i =
            { st with globalHooks := sortHooks (st.globalHooks ++ [c.meta i]) } := by
          rw [hc]; rfl
        have hwf := register_list_wf (x := c.meta i) h.1 rfl
        have hinv : StInv (i + 1) (st.register c.event c.priority c.name c.enabled c.funcId i) := by
          rw [hreg]
          exact ⟨hwf.1, fun e => WF_mono (h.2 e) (Nat.le_succ i)⟩
        obtain ⟨hinv2, hg, he⟩ := ih (i + 1) _ hinv
        have harith : i + 1 + rest.length = i + (c :: rest).length := by
          simp [List.length_cons]; omega
        refine ⟨by rw [← harith]; exact hinv2, ?_, ?_⟩
        · have h1 : (st.register c.event c.priority c.name c.enabled c.funcId i).globalHooks.Perm
              (st.globalHooks ++ [c.meta i]) := by rw [hreg]; exact hwf.2
          have h2 := hg.trans (h1.append_right (globalMetaAux (i + 1) rest))
          have h3 : (st.globalHooks ++ [c.meta i]) ++ globalMetaAux (i + 1) rest =
              st.globalHooks ++ globalMetaAux i (c :: rest) := by
            rw [List.append_assoc]
            simp [globalMetaAux, hc]
          rw [h3] at h2
          exact h2
        · intro e
          have h4 : (st.register c.event c.priority c.name c.enabled c.funcId i).hooks =
              st.hooks := by rw [hreg]
          have h5 : eventMetaAux e i (c :: rest) = eventMetaAux e (i + 1) rest := by
            simp [eventMetaAux, hc]
          rw [h5]
          have := he e
          rw [h4] at this
          exact this
      · -- event registration
        have hreg : st.register c.event c.priority c.name c.enabled c.funcId i =
            { st with hooks := assocSet st.hooks ev (sortHooks (((assocGet st.hooks ev).getD []) ++ [c.meta i])) } := by
          rw [hc]; rfl
        have hwf := register_list_wf (x := c.meta i) (h.2 ev) rfl
        have hlook : ∀ e : String,
            assocGet (st.register c.event c.priority c.name c.enabled c.funcId i).hooks e =
            if ev = e then some (sortHooks (((assocGet st.hooks ev).getD []) ++ [c.meta i]))
            else assocGet st.hooks e := by
          intro e
          rw [hreg]
          exact assocGet_assocSet st.hooks ev _ e
        have hinv : StInv (i + 1) (st.register c.event c.priority c.name c.enabled c.funcId i) := by
          refine ⟨by rw [hreg]; exact WF_mono h.1 (Nat.le_succ i), ?_⟩
          intro e
          rw [hlook e]
          by_cases hev : ev = e
          · simp only [if_pos hev]
            simpa using hwf.1
          · simp only [if_neg hev]
            exact WF_mono (h.2 e) (Nat.le_succ i)
        obtain ⟨hinv2, hg, he⟩ := ih (i + 1) _ hinv
        have harith : i + 1 + rest.length = i + (c :: rest).length := by
          simp [List.length_cons]; omega
        refine ⟨by rw [← harith]; exact hinv2, ?_, ?_⟩
        · have h4 : (st.register c.event c.priority c.name c.enabled c.funcId i).globalHooks =
              st.globalHooks := by rw [hreg]
          have h5 : globalMetaAux i (c :: rest) = globalMetaAux (i + 1) rest := by
            simp [globalMetaAux, hc]
          rw [h5]
          have := hg
          rw [h4] at this
          exact this
        · intro e
          have h6 := he e
          rw [hlook e] at h6
          by_cases hev : ev = e
          · subst hev
            simp only [if_pos rfl, Option.getD_some] at h6
            have h7 := h6.trans (hwf.2.append_right (eventMetaAux ev (i + 1) rest))
            have h8 : (((assocGet st.hooks ev).getD []) ++ [c.meta i]) ++
                eventMetaAux ev (i + 1) rest =
                ((assocGet st.hooks ev).getD []) ++ eventMetaAux ev i (c :: rest) := by
              rw [List.append_assoc]
              simp [eventMetaAux, hc]
            rw [h8] at h7
            exact h7
          · simp only [if_neg hev] at h6
            have h9 : eventMetaAux e i (c :: rest) = eventMetaAux e (i + 1) rest := by
              have : ¬ (c.event = some e) := by
                rw [hc]
                intro hcontra
                exact hev (Option.some_injective _ hcontra)
              simp [eventMetaAux, this]
            rw [h9]
            exact h6

theorem runGroup_eq_filter (exec : Nat → Option Int) (l : List HookMetadata) :
    runGroup exec l = (l.filter (fun h => h.enabled)).filterMap (fun h => exec h.funcId) := by
  induction l with
  | nil => rfl
  | cons h t ih =>
      by_cases he : h.enabled
      · rcases hf : exec h.funcId with _ | v <;>
          simp [runGroup, List.filterMap_cons, List.filter_cons, he, hf] <;>
          simpa [runGroup] using ih
      · simp [runGroup, List.filterMap_cons, List.filter_cons, he]
        simpa [runGroup] using ih

theorem length_filterMap_sub {α β : Type} (l : List α) (f : α → Option β) :
    (l.filterMap f).length = l.length - (l.filter (fun a => (f a).isNone)).length := by
  induction l with
  | nil => rfl
  | cons a t ih =>
      rcases hfa : f a with _ | b
      · simp [List.filterMap_cons, hfa, List.filter_cons, ih]
      · have hle := List.length_filter_le (fun a => (f a).isNone) t
        simp only [List.filterMap_cons, hfa, List.length_cons, List.filter_cons,
          Option.isNone_some, Bool.false_eq_true, if_false, cond_false]
        omega

/-- C1: for every HookRegistry built by any sequence of register calls and
every event, trigger fires all enabled global hooks first, then all enabled
hooks registered for that event; each of the two groups holds exactly the
matching registrations and is ordered by non-increasing priority with equal
priorities in registration order (lexKey is pairwise strict, so together with
the permutation it determines the firing order uniquely); the result list is
the firing-order list of hook return values. -/
theorem C1_sync_trigger_order (cmds : List RegCmd) (event : String) (exec : Nat → Option Int) :
    ((buildRegistry cmds).globalHooks).Perm (globalMetaAux 0 cmds) ∧
    ((buildRegistry cmds).globalHooks).Pairwise lexKey ∧
    ((assocGet (buildRegistry cmds).hooks event).getD []).Perm (eventMetaAux event 0 cmds) ∧
    ((assocGet (buildRegistry cmds).hooks event).getD []).Pairwise lexKey ∧
    (buildRegistry cmds).trigger event exec =
      ((buildRegistry cmds).globalHooks.filter (fun h => h.enabled)
        ++ ((assocGet (buildRegistry cmds).hooks event).getD []).filter (fun h => h.enabled)
       ).filterMap (fun h => exec h.funcId) := by
  obtain ⟨hinv, hg, he⟩ := buildAux_spec cmds 0 HookRegistry.empty StInv_empty
  have hb : buildRegistry cmds = buildAux 0 cmds HookRegistry.empty := rfl
  refine ⟨?_, ?_, ?_, ?_, ?_⟩
  · rw [hb]
    simpa [HookRegistry.empty] using hg
  · rw [hb]
    exact hinv.1.1
  · rw [hb]
    simpa [HookRegistry.empty, assocGet] using he event
  · rw [hb]
    exact (hinv.2 event).1
  · simp [HookRegistry.trigger, HookRegistry.triggerM, runGroup_eq_filter,
      List.filterMap_append]

/-- C2: every raising hook in a synchronous trigger is dropped from the
result list without stopping the remaining hooks, no exception reaches the
caller (trigger is a total function of the hook outcomes), and the number of
results is the number of enabled hooks minus the number of enabled hooks
that raised. -/
theorem C2_sync_trigger_isolation (st : HookRegistry) (event : String)
    (exec : Nat → Option Int) :
    st.trigger event exec =
      ((st.globalHooks ++ (assocGet st.hooks event).getD []).filter
        (fun h => h.enabled)).filterMap (fun h => exec h.funcId) ∧
    (st.trigger event exec).length =
      ((st.globalHooks ++ (assocGet st.hooks event).getD []).filter
        (fun h => h.enabled)).length -
      (((st.globalHooks ++ (assocGet st.hooks event).getD []).filter
        (fun h => h.enabled)).filter (fun h => (exec h.funcId).isNone)).length := by
  have h1 : st.trigger event exec =
      ((st.globalHooks ++ (assocGet st.hooks event).getD []).filter
        (fun h => h.enabled)).filterMap (fun h => exec h.funcId) := by
    simp [HookRegistry.trigger, HookRegistry.triggerM, runGroup_eq_filter,
      List.filter_append, List.filterMap_append]
  refine ⟨h1, ?_⟩
  rw [h1, length_filterMap_sub]

/-- C9: the synchronous trigger leaves the registry unchanged: the returned
state is the input state, so the global list and every event's hook list
(hence every record's priority, name and enabled flag and every list order)
are identical before and after the call. -/
theorem C9_sync_trigger_frame (st : HookRegistry) (event : String) (exec : Nat → Option Int) :
    (st.triggerM event exec).1 = st ∧
    (st.triggerM event exec).1.globalHooks = st.globalHooks ∧
    ∀ e : String, assocGet (st.triggerM event exec).1.hooks e = assocGet st.hooks e :=
  ⟨rfl, rfl, fun _ => rfl⟩

/-- C3: process starts at stage 0; reaching the end returns the current
value; at any stage index i the loop applies stage i to the current value,
threads a success into stage i+1, routes a failure with a registered handler
through that handler on the pre-stage value and the error (a handler success
continues at stage i+1, a handler failure propagates), and re-raises at once
when no handler is registered for i, so no stage after i runs. -/
theorem C3_pipeline_process (p : AsyncPipeline) (i : Nat) (v : Int)
    (hi : i < p.stages.length) :
    p.process v = p.processFrom 0 v ∧
    p.processFrom p.stages.length v = Except.ok v ∧
    p.processFrom i v =
      (match p.stages[i] v with
       | Except.ok w => p.processFrom (i + 1) w
       | Except.error e =>
           match assocGet p.errorHandlers i with
           | some h =>
               match h v e with
               | Except.ok w => p.processFrom (i + 1) w
               | Except.error e2 => Except.error e2
           | none => Except.error e) := by
  refine ⟨rfl, ?_, ?_⟩
  · show runStages p.errorHandlers p.stages.length (p.stages.drop p.stages.length) v = Except.ok v
    rw [List.drop_length]
    rfl
  · show runStages p.errorHandlers i (p.stages.drop i) v = _
    rw [List.drop_eq_getElem_cons hi]
    rfl

/-- Witness for C3 at the three-stage recovery pipeline, entering the raising
stage 1 with current value 6. -/
theorem C3_pipeline_process_witness :
    (1 < p3.stages.length) ∧
    p3.processFrom 1 6 =
      (match p3.stages[1] 6 with
       | Except.ok w => p3.processFrom 2 w
       | Except.error e =>
           match assocGet p3.errorHandlers 1 with
           | some h =>
               match h 6 e with
               | Except.ok w => p3.processFrom 2 w
               | Except.error e2 => Except.error e2
           | none => Except.error e) :=
  ⟨by decide, (C3_pipeline_process p3 1 6 (by decide)).2.2⟩

theorem runTeardown_fail (res : ResMap) (pre post : List (ResMap → Except String Unit))
    (f : ResMap → Except String Unit) (e : String)
    (hpre : ∀ g ∈ pre, g res = Except.ok ()) (hf : f res = Except.error e) :
    runTeardown res (pre ++ f :: post) = Except.error e := by
  induction pre with
  | nil => simp [runTeardown, hf]
  | cons g gs ih =>
      have hg : g res = Except.ok () := hpre g (List.mem_cons_self g gs)
      have hgs := ih (fun g2 h2 => hpre g2 (List.mem_cons_of_mem g h2))
      simp [runTeardown, hg, hgs]

theorem teardownOutcomes_fail (res : ResMap) (pre post : List (ResMap → Except String Unit))
    (f : ResMap → Except String Unit) (e : String)
    (hpre : ∀ g ∈ pre, g res = Except.ok ()) (hf : f res = Except.error e) :
    teardownOutcomes res (pre ++ f :: post) =
      pre.map (fun g => g res) ++ [Except.error e] := by
  induction pre with
  | nil => simp [teardownOutcomes, hf]
  | cons g gs ih =>
      have hg : g res = Except.ok () := hpre g (List.mem_cons_self g gs)
      have hgs := ih (fun g2 h2 => hpre g2 (List.mem_cons_of_mem g h2))
      simp [teardownOutcomes, hg, hgs]

/-- C4 counterexample: a context with three teardown hooks whose
second-registered hook raises.  The claim requires all three hooks to run and
the first failure to be re-raised only after all have executed; the code
executes only two hooks (the trace has two entries, not three) because the
failure aborts the sweep immediately, so the first-registered hook never
runs. -/
theorem C4_counterexample :
    ctx3.teardownHooks.length = 3 ∧
    ctx3.aexit = Except.error "boom" ∧
    ctx3.aexitOutcomes.length = 2 :=
  ⟨rfl, rfl, rfl⟩

/-- C4 amended: on scope exit the teardown hooks run in reverse registration
order, each receiving the full current resource map, but a teardown failure
propagates immediately: the hooks registered earlier than the failing one do
not run, and the failure is raised without the remaining hooks executing. -/
theorem C4_teardown_first_failure (ctx : AsyncHookContext)
    (pre post : List (ResMap → Except String Unit)) (f : ResMap → Except String Unit)
    (e : String)
    (hdec : ctx.teardownHooks.reverse = pre ++ f :: post)
    (hpre : ∀ g ∈ pre, g ctx.resources = Except.ok ())
    (hf : f ctx.resources = Except.error e) :
    ctx.aexit = Except.error e ∧
    ctx.aexitOutcomes = pre.map (fun g => g ctx.resources) ++ [Except.error e] := by
  unfold AsyncHookContext.aexit AsyncHookContext.aexitOutcomes
  rw [hdec]
  exact ⟨runTeardown_fail ctx.resources pre post f e hpre hf,
    teardownOutcomes_fail ctx.resources pre post f e hpre hf⟩

/-- Witness for C4 at the three-hook context: the last-registered hook runs
and succeeds, the second raises, and the exit reports that failure. -/
theorem C4_teardown_first_failure_witness :
    ctx3.aexit = Except.error "boom" ∧
    ctx3.aexitOutcomes = [tdOk].map (fun g => g ctx3.resources) ++ [Except.error "boom"] :=
  C4_teardown_first_failure ctx3 [tdOk] [tdOk] tdBoom "boom" rfl
    (by
      intro g hg
      rw [List.mem_singleton] at hg
      subst hg
      rfl)
    rfl

theorem chainAgents_eq_chainRun (agents : List (String × (Int → Except String Int)))
    (agentSequence : List String) (v : Int) :
    chainAgents agents agentSequence v = chainRun (resolveAgents agents agentSequence) v := by
  induction agentSequence generalizing v with
  | nil => rfl
  | cons aid rest ih =>
      rcases ha : assocGet agents aid with _ | a
      · simp [chainAgents, resolveAgents, List.filterMap_cons, ha, ih]
      · rcases hav : a v with e | m <;>
          simp [chainAgents, chainRun, resolveAgents, List.filterMap_cons, ha, hav, ih]

theorem chainRun_append_cons (gs : List (Int → Except String Int))
    (f : Int → Except String Int) (hs : List (Int → Except String Int))
    (v : Int) (ms : List Int) (hgs : chainRun gs v = Except.ok ms) :
    chainRun (gs ++ f :: hs) v =
      (match f (ms.getLastD v) with
       | Except.ok m =>
           match chainRun hs m with
           | Except.ok rs => Except.ok (ms ++ m :: rs)
           | Except.error e => Except.error e
       | Except.error e => Except.error e) := by
  induction gs generalizing v ms with
  | nil =>
      have hms : ms = [] := by
        have : Except.ok ([] : List Int) = Except.ok ms := hgs
        exact (Except.ok.inj this).symm
      subst hms
      rcases hf : f v with e | m
      · simp [chainRun, hf]
      · rcases hh : chainRun hs m with e | rs <;> simp [chainRun, hf, hh]
  | cons g gs2 ih =>
      rcases hgv : g v with e | m0
      · have hcr : chainRun (g :: gs2) v = Except.error e := by
          simp [chainRun, hgv]
        rw [hcr] at hgs
        exact absurd hgs (by simp)
      · rcases hrest : chainRun gs2 m0 with e | ms0
        · have hcr : chainRun (g :: gs2) v = Except.error e := by
            simp [chainRun, hgv, hrest]
          rw [hcr] at hgs
          exact absurd hgs (by simp)
        · have hcr : chainRun (g :: gs2) v = Except.ok (m0 :: ms0) := by
            simp [chainRun, hgv, hrest]
          rw [hcr] at hgs
          have hms : ms = m0 :: ms0 := (Except.ok.inj hgs).symm
          subst hms
          have hx := ih m0 ms0 hrest
          have hlast : (m0 :: ms0).getLastD v = ms0.getLastD m0 := List.getLastD_cons v m0 ms0
          have hstep2 : chainRun ((g :: gs2) ++ f :: hs) v =
              (match chainRun (gs2 ++ f :: hs) m0 with
               | Except.ok ms2 => Except.ok (m0 :: ms2)
               | Except.error e => Except.error e) := by
            simp [chainRun, hgv, List.cons_append]
          rw [hstep2, hx, hlast]
          rcases hf : f (ms0.getLastD m0) with e | m
          · simp
          · rcases hh : chainRun hs m with e | rs <;> simp [hh]

/-- C5 counterexample: in the three-agent workflow [A, B, C] with B always
raising, parallel execute_workflow returns the initial message followed by
A's and C's results — three entries — because the returned list is seeded
with the initial message; the claim's output list of exactly 2 entries does
not occur. -/
theorem C5_counterexample :
    orch3.execute_workflow "wf" 0 true = Except.ok [0, 1, 3] ∧
    ¬ ∃ l : List Int, orch3.execute_workflow "wf" 0 true = Except.ok l ∧ l.length = 2 := by
  have h : orch3.execute_workflow "wf" 0 true = Except.ok [0, 1, 3] := rfl
  refine ⟨h, ?_⟩
  rintro ⟨l, hl, h2⟩
  rw [h] at hl
  have h3 : ([0, 1, 3] : List Int) = l := Except.ok.inj hl
  rw [← h3] at h2
  exact absurd h2 (by decide)

/-- C5 amended: in parallel mode every registered agent of the workflow
sequence is invoked with the same initial message (the outcome list has one
positional slot per resolved agent), agents whose execution raised are
excluded from the returned list while the other agents' results are kept in
order; the returned list is the initial message followed by those successful
results, so for [A, B, C] with B raising it has three entries: the initial
message, A's result and C's result. -/
theorem C5_parallel_workflow (o : AgentOrchestrator) (workflowName : String)
    (agentSequence : List String) (initial : Int)
    (hw : assocGet o.workflows workflowName = some agentSequence)
    (hg : runGlobalHooks o.globalHooks workflowName initial = Except.ok ()) :
    o.execute_workflow workflowName initial true =
      Except.ok (initial ::
        ((resolveAgents o.agents agentSequence).map (fun a => a initial)).filterMap
          exceptToOption) ∧
    ((resolveAgents o.agents agentSequence).map (fun a => a initial)).length =
      (resolveAgents o.agents agentSequence).length := by
  refine ⟨?_, by simp⟩
  simp [AgentOrchestrator.execute_workflow, hw, hg]

/-- Witness for C5 at the concrete orchestrator: both hypotheses hold by
evaluation and the parallel run keeps A's and C's results after the initial
message. -/
theorem C5_parallel_workflow_witness :
    orch3.execute_workflow "wf" 0 true =
      Except.ok (0 ::
        ((resolveAgents orch3.agents ["A", "B", "C"]).map (fun a => a 0)).filterMap
          exceptToOption) ∧
    ((resolveAgents orch3.agents ["A", "B", "C"]).map (fun a => a 0)).length =
      (resolveAgents orch3.agents ["A", "B", "C"]).length :=
  C5_parallel_workflow orch3 "wf" ["A", "B", "C"] 0 rfl rfl

/-- C6: in sequential mode the result is the initial message followed by the
chained results of exactly the resolved agents (unregistered ids are silently
skipped); when the resolved agents split as gs ++ f :: hs with gs succeeding
and producing the message list ms, agent f receives the last produced message
(the previous agent's output, or the initial message), a success of f is
appended and threads into the remaining agents hs, and a failure of f
propagates to the caller with no later agent executed. -/
theorem C6_sequential_workflow (o : AgentOrchestrator) (workflowName : String)
    (agentSequence : List String) (initial : Int)
    (gs hs : List (Int → Except String Int)) (f : Int → Except String Int) (ms : List Int)
    (hw : assocGet o.workflows workflowName = some agentSequence)
    (hg : runGlobalHooks o.globalHooks workflowName initial = Except.ok ())
    (hres : resolveAgents o.agents agentSequence = gs ++ f :: hs)
    (hgs : chainRun gs initial = Except.ok ms) :
    (o.execute_workflow workflowName initial false =
      (match chainRun (resolveAgents o.agents agentSequence) initial with
       | Except.ok ms2 => Except.ok (initial :: ms2)
       | Except.error e => Except.error e)) ∧
    chainRun (resolveAgents o.agents agentSequence) initial =
      (match f (ms.getLastD initial) with
       | Except.ok m =>
           match chainRun hs m with
           | Except.ok rs => Except.ok (ms ++ m :: rs)
           | Except.error e => Except.error e
       | Except.error e => Except.error e) := by
  constructor
  · simp only [AgentOrchestrator.execute_workflow, hw, hg,
      chainAgents_eq_chainRun]
    rfl
  · rw [hres]
    exact chainRun_append_cons gs f hs initial ms hgs

/-- Witness for C6 at the concrete orchestrator: A succeeds with message 1,
B receives it and raises, so the sequential run fails with B's error and C
never contributes. -/
theorem C6_sequential_workflow_witness :
    orch3.execute_workflow "wf" 0 false = Except.error "bfail" ∧
    chainRun (resolveAgents orch3.agents ["A", "B", "C"]) 0 = Except.error "bfail" := by
  have h := C6_sequential_workflow orch3 "wf" ["A", "B", "C"] 0 [agA] [agC] agB [1]
    rfl rfl rfl rfl
  exact ⟨h.1, h.2⟩

theorem runGroupOpt_conc (exec : Nat → Except String Int) (ol : Option (List Nat)) :
    runGroupOpt true exec ol = Except.ok ((ol.getD []).map exec) := by
  cases ol <;> rfl

theorem runMainGroup_conc_none (d : ℚ) (exec : Nat → Except String Int)
    (ol : Option (List Nat)) :
    runMainGroup true none d exec ol = Except.ok ((ol.getD []).map exec) := by
  cases ol <;> simp [runMainGroup, timeoutGuard, runHooks]

theorem runGroupOpt_seq (exec : Nat → Except String Int) (ol : Option (List Nat)) :
    runGroupOpt false exec ol = seqHooks exec (ol.getD []) := by
  cases ol <;> rfl

theorem runMainGroup_seq_none (d : ℚ) (exec : Nat → Except String Int)
    (ol : Option (List Nat)) :
    runMainGroup false none d exec ol = seqHooks exec (ol.getD []) := by
  cases ol <;> simp [runMainGroup, timeoutGuard, runHooks, seqHooks]

theorem seqHooks_ok (exec : Nat → Except String Int) (l : List Nat)
    (h : ∀ f ∈ l, isOkE (exec f) = true) :
    ∃ rs, seqHooks exec l = Except.ok rs := by
  induction l with
  | nil => exact ⟨[], rfl⟩
  | cons g gs ih =>
      rcases hx : exec g with e2 | v
      · have hg := h g (List.mem_cons_self g gs)
        rw [hx] at hg
        simp [isOkE] at hg
      · obtain ⟨rs, hrs⟩ := ih (fun f hf => h f (List.mem_cons_of_mem g hf))
        exact ⟨Except.ok v :: rs, by simp [seqHooks, hx, hrs]⟩

theorem seqHooks_fail (exec : Nat → Except String Int) (pre post : List Nat)
    (h0 : Nat) (e : String)
    (hok : ∀ f ∈ pre, isOkE (exec f) = true) (hfail : exec h0 = Except.error e) :
    seqHooks exec (pre ++ h0 :: post) = Except.error e := by
  induction pre with
  | nil => simp [seqHooks, hfail]
  | cons g gs ih =>
      rcases hx : exec g with e2 | v
      · have hg := hok g (List.mem_cons_self g gs)
        rw [hx] at hg
        simp [isOkE] at hg
      · have hrec := ih (fun f hf => hok f (List.mem_cons_of_mem g hf))
        simp [seqHooks, hx, hrec]

/-- C7: for every async trigger, a concurrently-run group fills every
positional slot with the matching hook's value or failure (the whole group's
results are the pointwise evaluation, so one hook's failure does not disturb
its siblings' slots and the call succeeds); when the groups run sequentially,
the first failing main hook aborts the call: trigger returns that hook's
error, independent of the main hooks after it and of the post group. -/
theorem C7_async_group_failure (st : AsyncHookRegistry) (event : String)
    (exec : Nat → Except String Int) (d : ℚ)
    (mainPre mainPost : List Nat) (h0 : Nat) (e : String)
    (hpre : ∀ f ∈ (assocGet st.preHooks event).getD [], isOkE (exec f) = true)
    (hmain : (assocGet st.hooks event).getD [] = mainPre ++ h0 :: mainPost)
    (hok : ∀ f ∈ mainPre, isOkE (exec f) = true)
    (hfail : exec h0 = Except.error e) :
    (∀ (st2 : AsyncHookRegistry) (ev2 : String) (ex2 : Nat → Except String Int) (d2 : ℚ),
      st2.trigger ev2 true none d2 ex2 =
        Except.ok (((assocGet st2.preHooks ev2).getD []).map ex2,
                   ((assocGet st2.hooks ev2).getD []).map ex2,
                   ((assocGet st2.postHooks ev2).getD []).map ex2)) ∧
    st.trigger event false none d exec = Except.error e := by
  constructor
  · intro st2 ev2 ex2 d2
    unfold AsyncHookRegistry.trigger
    rw [runGroupOpt_conc, runMainGroup_conc_none, runGroupOpt_conc]
  · obtain ⟨rs, hrs⟩ := seqHooks_ok exec ((assocGet st.preHooks event).getD []) hpre
    have hm : seqHooks exec ((assocGet st.hooks event).getD []) = Except.error e := by
      rw [hmain]
      exact seqHooks_fail exec mainPre mainPost h0 e hok hfail
    unfold AsyncHookRegistry.trigger
    rw [runGroupOpt_seq, hrs, runMainGroup_seq_none, hm]

/-- Witness for C7 at the concrete registry: pre hook 0 succeeds, main hook 2
raises between main hooks 1 and 3; concurrently every slot is filled and the
call succeeds, sequentially the call fails with hook 2's error. -/
theorem C7_async_group_failure_witness :
    areg7.trigger "e" true none 0 exec7 =
      Except.ok ([Except.ok 0], [Except.ok 1, Except.error "boom", Except.ok 3],
        [Except.ok 4]) ∧
    areg7.trigger "e" false none 0 exec7 = Except.error "boom" := by
  have h := C7_async_group_failure areg7 "e" exec7 0 [1] [3] 2 "boom"
    (by decide) rfl (by decide) rfl
  exact ⟨h.1 areg7 "e" exec7 0, h.2⟩

/-- C8 counterexample: a registry whose pre hook for event e raises.  With
sequential execution the pre-group failure propagates to the caller of
trigger (the call returns the error, never a normal result), contrary to the
claim that pre and post group failures are isolated and logged like the
synchronous registry regardless of the execution mode. -/
theorem C8_counterexample :
    areg8.trigger "e" false none 0 exec8 = Except.error "preboom" ∧
    ∀ results, areg8.trigger "e" false none 0 exec8 ≠ Except.ok results := by
  have h : areg8.trigger "e" false none 0 exec8 = Except.error "preboom" := rfl
  refine ⟨h, ?_⟩
  intro results hr
  rw [h] at hr
  exact Except.noConfusion hr

/-- C8 amended: pre and post group failures are not treated like the
synchronous registry.  In concurrent mode a failing pre or post hook's error
object is kept in its positional slot of that group's result list (included
in the returned results, not logged and dropped) while the sibling hooks'
slots are unaffected and trigger returns normally; in sequential mode the
first failing pre hook aborts the whole trigger call, whose caller receives
that error (no main or post hook result is returned). -/
theorem C8_async_prepost_failure (st : AsyncHookRegistry) (event : String)
    (exec : Nat → Except String Int) (d : ℚ)
    (prePre prePost : List Nat) (p0 : Nat) (e : String)
    (hpre : (assocGet st.preHooks event).getD [] = prePre ++ p0 :: prePost)
    (hok : ∀ f ∈ prePre, isOkE (exec f) = true)
    (hfail : exec p0 = Except.error e) :
    (∀ (st2 : AsyncHookRegistry) (ev2 : String) (ex2 : Nat → Except String Int) (d2 : ℚ),
      st2.trigger ev2 true none d2 ex2 =
        Except.ok (((assocGet st2.preHooks ev2).getD []).map ex2,
                   ((assocGet st2.hooks ev2).getD []).map ex2,
                   ((assocGet st2.postHooks ev2).getD []).map ex2)) ∧
    st.trigger event false none d exec = Except.error e := by
  constructor
  · intro st2 ev2 ex2 d2
    unfold AsyncHookRegistry.trigger
    rw [runGroupOpt_conc, runMainGroup_conc_none, runGroupOpt_conc]
  · have hp : seqHooks exec ((assocGet st.preHooks event).getD []) = Except.error e := by
      rw [hpre]
      exact seqHooks_fail exec prePre prePost p0 e hok hfail
    unfold AsyncHookRegistry.trigger
    rw [runGroupOpt_seq, hp]

/-- Witness for C8 at the concrete registry whose only pre hook raises:
concurrently the error sits in the pre group's single slot and the call
succeeds, sequentially the trigger call itself fails with that error. -/
theorem C8_async_prepost_failure_witness :
    areg8.trigger "e" true none 0 exec8 =
      Except.ok ([Except.error "preboom"], [Except.ok 1], []) ∧
    areg8.trigger "e" false none 0 exec8 = Except.error "preboom" := by
  have h := C8_async_prepost_failure areg8 "e" exec8 0 [] [] 0 "preboom"
    rfl (by decide) rfl
  exact ⟨h.1 areg8 "e" exec8 0, h.2⟩

/-- C10 counterexample: the deadline guard is Python truthiness, so the
negative timeout -1 is guarded true and the main group of a registry with one
main hook fails with the Timeout condition even though -1 is not strictly
positive. -/
theorem C10_counterexample :
    timeoutGuard (some (-1 : ℚ)) = true ∧
    ¬ ((0 : ℚ) < -1) ∧
    areg10.trigger "e" true (some (-1 : ℚ)) 0 exec10 = Except.error "TimeoutError" := by
  refine ⟨by decide, by norm_num, ?_⟩
  rfl

/-- C10 amended: when the timeout argument is absent (None) or 0 no deadline
is applied to the main group at all — the trigger result does not depend on
how long the main group runs and equals the run without a timeout — and a
deadline (hence a Timeout condition) is applied exactly for nonzero timeout
values, including negative ones, not only strictly positive ones. -/
theorem C10_timeout_guard (st : AsyncHookRegistry) (event : String) (conc : Bool)
    (exec : Nat → Except String Int) (d d2 : ℚ) (timeout : Option ℚ)
    (h : timeoutGuard timeout = false) :
    st.trigger event conc timeout d exec = st.trigger event conc timeout d2 exec ∧
    st.trigger event conc timeout d exec = st.trigger event conc none 0 exec ∧
    timeoutGuard none = false ∧
    timeoutGuard (some 0) = false ∧
    ∀ t : ℚ, t ≠ 0 → timeoutGuard (some t) = true := by
  have hmain : ∀ d3 : ℚ, runMainGroup conc timeout d3 exec (assocGet st.hooks event) =
      runMainGroup conc none 0 exec (assocGet st.hooks event) := by
    intro d3
    cases hcase : assocGet st.hooks event with
    | none => rfl
    | some hookList =>
        simp only [runMainGroup]
        rw [h]
        simp [timeoutGuard]
  refine ⟨?_, ?_, rfl, by simp [timeoutGuard], ?_⟩
  · unfold AsyncHookRegistry.trigger
    rw [hmain d, hmain d2]
  · unfold AsyncHookRegistry.trigger
    rw [hmain d]
  · intro t ht
    simp [timeoutGuard, ht]

/-- Witness for C10 with the falsy timeout 0: the run with durations 5 and 7
and the run without a timeout all coincide. -/
theorem C10_timeout_guard_witness :
    areg10.trigger "e" true (some 0) 5 exec10 = areg10.trigger "e" true (some 0) 7 exec10 ∧
    areg10.trigger "e" true (some 0) 5 exec10 = areg10.trigger "e" true none 0 exec10 := by
  have h := C10_timeout_guard areg10 "e" true exec10 5 7 (some 0) (by decide)
  exact ⟨h.1, h.2.1⟩
